import Mathlib

/-!
# Shallow embedding of the `patchenv` Go library

`patchenv` (package `patchenv`, file `patchenv.go`) exposes one public
function, `Patch()`.  It reads the `PATCH_ENV_COMMAND` environment variable;
if non-empty it runs that text as a command (via `$SHELL -c` when `SHELL`
is set, otherwise passing the text to `exec.Command` directly), scans the
captured stdout line by line with `bufio.Scanner`, splits each line at the
first `=` with `strings.SplitN(line, "=", 2)`, and applies each pair with
`os.Setenv`, logging a warning on malformed lines or failed assignments.

The embedding models Go byte strings as `List Char` (ASCII-faithful; every
byte relevant to the control flow — `'='`, `'\n'`, `'\r'`, NUL — is a
single byte in UTF-8, so char-level and byte-level splitting agree on the
inputs the claims are about).  The external subprocess is an oracle
`ExecCmd → SubprocResult` supplied as a parameter; the process environment
is an association list; warnings and writes to the process's own
stdout/stderr are recorded as explicit traces.
-/

namespace Patchenv

/-- Go byte strings, modelled as lists of characters. -/
abbrev Str := List Char

/-- Abbreviation for turning a Lean string literal into the model's strings. -/
def str (s : String) : Str := s.data

/-- `patchCommandVar` from patchenv.go: the environment variable holding the
command Patch runs. -/
def patchCommandVar : Str := str "PATCH_ENV_COMMAND"

/-- `shellVar` from patchenv.go: the environment variable naming the user's
configured shell. -/
def shellVar : Str := str "SHELL"

/-- The process environment: an association list from names to values.
`os.Setenv` overwrites an existing entry or appends a fresh one. -/
abbrev Env := List (Str × Str)

/-- Lookup in the environment (Go `syscall.Getenv`, which distinguishes
present from absent). -/
def envGet : Env → Str → Option Str
  | [], _ => none
  | (k', v') :: rest, k => if k' = k then some v' else envGet rest k

/-- Go `os.Getenv`: returns the empty string when the variable is unset. -/
def getenv (env : Env) (k : Str) : Str := (envGet env k).getD []

/-- Go `os.Setenv` on the environment table: overwrite the first entry with
this key, or append a new entry. -/
def envSet : Env → Str → Str → Env
  | [], k, v => [(k, v)]
  | (k', v') :: rest, k, v =>
      if k' = k then (k, v) :: rest else (k', v') :: envSet rest k v

/-- The EINVAL conditions of Go `syscall.Setenv` (src/syscall/env_unix.go):
empty key, `'='` or NUL byte in the key, or NUL byte in the value. -/
def setenvFails (k v : Str) : Bool :=
  k.isEmpty || k.any (fun c => c = '=' || c.toNat = 0)
    || v.any (fun c => c.toNat = 0)

/-- A command as handed to Go `exec.Command(name, arg...)`: a program name
plus its argument list. -/
structure ExecCmd where
  prog : Str
  args : List Str
  deriving DecidableEq, Repr

/-- Outcome of running the subprocess: `exitErr = none` models
`cmd.Run()` returning nil (started fine, exited zero); `some e` models a
start failure or non-zero exit whose `Error()` text is `e`.  `stdout` and
`stderr` are the bytes the subprocess wrote to the two capture buffers. -/
structure SubprocResult where
  exitErr : Option Str
  stdout : Str
  stderr : Str
  deriving DecidableEq, Repr

/-- The two diagnostic streams of the running process. -/
inductive Chan where
  | stdout
  | stderr
  deriving DecidableEq, Repr

/-- The error value built by `runWithShell` via
`fmt.Errorf("patchenv command %q failed: %q", cmdString, err.Error())`:
it carries the command text and the underlying error text. -/
structure PatchError where
  cmdString : Str
  underlying : Str
  deriving DecidableEq, Repr

/-- The `log.Printf` warnings of `patchFromCommand`, kept structurally:
`invalidLine line` models
`log.Printf("[WARNING] patchenv: invalid output line: %s", line)` and
`setenvFailed k v` models
`log.Printf("[WARNING] patchenv: os.Setenv(%q, %q) returned error: %s", ...)`
(the underlying error there is always EINVAL, so the key and value
determine the message). -/
inductive Warning where
  | invalidLine (line : Str)
  | setenvFailed (key value : Str)
  deriving DecidableEq, Repr

/-- `runWithShell`'s command construction (patchenv.go lines 79-86):
if `SHELL` is empty/unset, `exec.Command(cmdString)` — the whole command
text is the program name and the argument list is empty; otherwise
`exec.Command(shell, "-c", cmdString)`. -/
def shellCommand (env : Env) (cmdString : Str) : ExecCmd :=
  let shell := getenv env shellVar
  if shell = [] then ⟨cmdString, []⟩
  else ⟨shell, [str "-c", cmdString]⟩

/-- `bufio.Scanner` tokenization with `bufio.ScanLines`, before the
max-token-size check: split the buffer at each `'\n'`; a final fragment
with no terminator is still a token; a trailing terminator produces no
empty final token; empty input produces no token. -/
def scanTokens : Str → List Str
  | [] => []
  | c :: cs =>
      if c = '\n' then [] :: scanTokens cs
      else
        match scanTokens cs with
        | [] => [[c]]
        | t :: ts => (c :: t) :: ts

/-- `dropCR` of bufio.ScanLines: strip one trailing carriage return from a
token. -/
def dropCR (t : Str) : Str :=
  if t.getLast? = some '\r' then t.dropLast else t

/-- `bufio.MaxScanTokenSize`: the scanner's default maximum token size. -/
def maxScanTokenSize : Nat := 65536

/-- The scanner loop: yield `dropCR` of each token in order, but if a raw
token (the bytes before its `'\n'`) reaches the maximum token size the
scanner stops with `ErrTooLong` — it yields no further token.  The Bool
records whether scanning ran to completion; `patchFromCommand` never
consults it (`scanner.Err()` is never called). -/
def scanWithLimit : List Str → List Str × Bool
  | [] => ([], true)
  | t :: ts =>
      if maxScanTokenSize ≤ t.length then ([], false)
      else
        let r := scanWithLimit ts
        (dropCR t :: r.1, r.2)

/-- The sequence of lines `scanner.Text()` yields for a stdout buffer,
with the completion flag. -/
def scanLines (s : Str) : List Str × Bool := scanWithLimit (scanTokens s)

/-- `strings.SplitN(line, "=", 2)`: `none` when the line has no `'='`
(SplitN returned a single part), otherwise the text before the first `'='`
and the text after it. -/
def splitEq : Str → Option (Str × Str)
  | [] => none
  | c :: cs =>
      if c = '=' then some ([], cs)
      else
        match splitEq cs with
        | none => none
        | some (a, b) => some (c :: a, b)

/-- The state threaded through the parse loop: the process environment and
the warnings logged so far. -/
structure PatchState where
  env : Env
  warnings : List Warning
  deriving DecidableEq, Repr

/-- One iteration of the loop in `patchFromCommand` (lines 55-68): split the
line at the first `'='`; if that does not give two parts or the key is
empty, log an invalid-line warning; otherwise call `os.Setenv`, logging a
warning if it fails. -/
def processLine (st : PatchState) (line : Str) : PatchState :=
  match splitEq line with
  | none => { st with warnings := st.warnings ++ [.invalidLine line] }
  | some (k, v) =>
      if k = [] then { st with warnings := st.warnings ++ [.invalidLine line] }
      else if setenvFails k v then
        { st with warnings := st.warnings ++ [.setenvFailed k v] }
      else { st with env := envSet st.env k v }

/-- The environment after processing a list of lines, starting with no
warnings logged. -/
def applyLines (env : Env) (lines : List Str) : PatchState :=
  lines.foldl processLine ⟨env, []⟩

/-- The observable result of a `Patch()` call: the returned error (if any),
the process environment afterwards, the warnings logged, and what was
written to the process's own stdout/stderr, in order. -/
structure PatchResult where
  err : Option PatchError
  env : Env
  warnings : List Warning
  writes : List (Chan × Str)
  deriving DecidableEq, Repr

/-- `runWithShell` (lines 78-102) followed by `patchFromCommand`'s loop
(lines 49-70): run the subprocess with stdout/stderr captured; on error,
forward the captured stdout then stderr to the process's own streams and
return the descriptive error without parsing; on success, scan the stdout
buffer and apply each line, then return nil unconditionally. -/
def patchFromCommand (env : Env) (exec : ExecCmd → SubprocResult)
    (cmdString : Str) : PatchResult :=
  let r := exec (shellCommand env cmdString)
  match r.exitErr with
  | some e =>
      ⟨some ⟨cmdString, e⟩, env, [], [(.stdout, r.stdout), (.stderr, r.stderr)]⟩
  | none =>
      let st := applyLines env (scanLines r.stdout).1
      ⟨none, st.env, st.warnings, []⟩

/-- `Patch` (lines 38-45): read `PATCH_ENV_COMMAND`; if empty (or unset —
`os.Getenv` conflates the two), return nil with no effect; otherwise run
`patchFromCommand`. -/
def Patch (env : Env) (exec : ExecCmd → SubprocResult) : PatchResult :=
  let cmdString := getenv env patchCommandVar
  if cmdString = [] then ⟨none, env, [], []⟩
  else patchFromCommand env exec cmdString

/-- Whitespace-naive splitting of a command text into words (split on
spaces, dropping empty fragments). -/
def splitWords (s : Str) : List Str :=
  (s.splitOn ' ').filter (fun w => w ≠ [])

/-- Modelled from the claim's words, NOT from the source: the behavior the
spec ascribes to the no-shell path — split the command text into a program
name plus arguments by whitespace-naive splitting.  Used only to compare
against `shellCommand`, which embeds the source. -/
def claimedDirectCommand (cmdString : Str) : ExecCmd :=
  match splitWords cmdString with
  | [] => ⟨[], []⟩
  | p :: as => ⟨p, as⟩

/-- A line assigns the key `k` when it splits into `k` and some value and
the `os.Setenv` call for the pair succeeds. -/
def setsKey (k : Str) (l : Str) : Bool :=
  match splitEq l with
  | some (k', v') => k' = k && !setenvFails k' v'
  | none => false

/-- Join lines with `'\n'` separators, ending with `tail` (no separator
before `tail`). -/
def joinLn (lines : List Str) (tail : Str) : Str :=
  lines.foldr (fun g acc => g ++ '\n' :: acc) tail

/-- A string is free of NUL bytes (the one byte `os.Setenv` rejects in a
value, and rejects in a key alongside `'='`). -/
def noNul (s : Str) : Prop := ∀ c ∈ s, c.toNat ≠ 0

instance (s : Str) : Decidable (noNul s) := by
  unfold noNul; infer_instance

/-! ## Helper lemmas -/

theorem envGet_envSet_self (e : Env) (k v : Str) :
    envGet (envSet e k v) k = some v := by
  induction e with
  | nil => simp [envSet, envGet]
  | cons hd tl ih =>
    obtain ⟨k', v'⟩ := hd
    by_cases h : k' = k
    · simp [envSet, h, envGet]
    · simp [envSet, h, envGet, ih]

theorem envGet_envSet_ne (e : Env) (k v k' : Str) (h : k' ≠ k) :
    envGet (envSet e k v) k' = envGet e k' := by
  induction e with
  | nil => simp [envSet, envGet, Ne.symm h]
  | cons hd tl ih =>
    obtain ⟨k₀, v₀⟩ := hd
    by_cases hk : k₀ = k
    · subst hk
      simp [envSet, envGet, Ne.symm h]
    · simp only [envSet, if_neg hk, envGet]
      by_cases hk' : k₀ = k'
      · simp [hk']
      · simp [hk', ih]

theorem splitEq_of_no_eq (l : Str) (h : '=' ∉ l) : splitEq l = none := by
  induction l with
  | nil => rfl
  | cons c cs ih =>
    simp only [List.mem_cons, not_or] at h
    simp [splitEq, Ne.symm h.1, ih h.2]

theorem splitEq_append (k v : Str) (h : '=' ∉ k) :
    splitEq (k ++ '=' :: v) = some (k, v) := by
  induction k with
  | nil => simp [splitEq]
  | cons c k' ih =>
    simp only [List.mem_cons, not_or] at h
    simp [splitEq, Ne.symm h.1, ih h.2]

theorem setenvFails_eq_false (k v : Str) (hk : '=' ∉ k) (hne : k ≠ [])
    (hnk : noNul k) (hnv : noNul v) : setenvFails k v = false := by
  simp only [setenvFails, Bool.or_eq_false_iff]
  refine ⟨⟨?_, ?_⟩, ?_⟩
  · simpa [List.isEmpty_iff] using hne
  · simp only [List.any_eq_false, Bool.or_eq_true, decide_eq_true_eq, not_or]
    exact fun c hc => ⟨fun hceq => hk (hceq ▸ hc), hnk c hc⟩
  · simp only [List.any_eq_false, decide_eq_true_eq]
    exact hnv

theorem processLine_assign (st : PatchState) (k v : Str) (hk : '=' ∉ k)
    (hne : k ≠ []) (hnk : noNul k) (hnv : noNul v) :
    processLine st (k ++ '=' :: v) = { st with env := envSet st.env k v } := by
  simp [processLine, splitEq_append k v hk, hne,
    setenvFails_eq_false k v hk hne hnk hnv]

theorem processLine_invalid (st : PatchState) (l : Str)
    (h : '=' ∉ l ∨ ∃ v, l = '=' :: v) :
    processLine st l = { st with warnings := st.warnings ++ [.invalidLine l] } := by
  rcases h with h | ⟨v, rfl⟩
  · simp [processLine, splitEq_of_no_eq l h]
  · simp [processLine, splitEq]

theorem processLine_setenv_fails (st : PatchState) (k v : Str) (hk : '=' ∉ k)
    (hne : k ≠ []) (hf : setenvFails k v = true) :
    processLine st (k ++ '=' :: v)
      = { st with warnings := st.warnings ++ [.setenvFailed k v] } := by
  simp [processLine, splitEq_append k v hk, hne, hf]

theorem processLine_env_congr (st st' : PatchState) (l : Str)
    (h : st.env = st'.env) : (processLine st l).env = (processLine st' l).env := by
  unfold processLine
  cases hs : splitEq l with
  | none => simpa using h
  | some p =>
    obtain ⟨k, v⟩ := p
    by_cases hk : k = []
    · simpa [hk] using h
    · by_cases hf : setenvFails k v
      · simpa [hk, hf] using h
      · simp [hk, hf, h]

theorem foldl_env_congr (ls : List Str) (st st' : PatchState)
    (h : st.env = st'.env) :
    (ls.foldl processLine st).env = (ls.foldl processLine st').env := by
  induction ls generalizing st st' with
  | nil => exact h
  | cons l ls ih => exact ih _ _ (processLine_env_congr st st' l h)

theorem processLine_warnings_mono (st : PatchState) (l : Str) (a : Warning)
    (h : a ∈ st.warnings) : a ∈ (processLine st l).warnings := by
  unfold processLine
  cases hs : splitEq l with
  | none => simpa using Or.inl h
  | some p =>
    obtain ⟨k, v⟩ := p
    by_cases hk : k = []
    · simp only [hk, if_pos rfl]
      exact List.mem_append_left _ h
    · by_cases hf : setenvFails k v
      · simp only [hk, if_neg hk, hf, if_pos rfl]
        exact List.mem_append_left _ h
      · simpa [hk, hf] using h

theorem foldl_warnings_mono (ls : List Str) (st : PatchState) (a : Warning)
    (h : a ∈ st.warnings) : a ∈ (ls.foldl processLine st).warnings := by
  induction ls generalizing st with
  | nil => exact h
  | cons l ls ih => exact ih _ (processLine_warnings_mono st l a h)

theorem processLine_env_of_not_setsKey (st : PatchState) (k l : Str)
    (h : setsKey k l = false) :
    envGet (processLine st l).env k = envGet st.env k := by
  unfold setsKey at h
  unfold processLine
  cases hs : splitEq l with
  | none => simp
  | some p =>
    obtain ⟨k', v'⟩ := p
    rw [hs] at h
    by_cases hk : k' = []
    · simp [hk]
    · by_cases hf : setenvFails k' v'
      · simp [hk, hf]
      · have hne : k' ≠ k := by
          intro hkk
          subst hkk
          simp at h
          exact hf h
        simp [hk, hf, envGet_envSet_ne st.env k' v' k (Ne.symm hne)]

theorem foldl_env_of_not_setsKey (ls : List Str) (st : PatchState) (k : Str)
    (h : ∀ l ∈ ls, setsKey k l = false) :
    envGet (ls.foldl processLine st).env k = envGet st.env k := by
  induction ls generalizing st with
  | nil => rfl
  | cons l ls ih =>
    rw [List.foldl_cons, ih _ (fun l' hl' => h l' (List.mem_cons_of_mem _ hl')),
      processLine_env_of_not_setsKey st k l (h l (List.mem_cons_self _ _))]

theorem scanTokens_append (a b : Str) (h : '\n' ∉ a) :
    scanTokens (a ++ '\n' :: b) = a :: scanTokens b := by
  induction a with
  | nil => simp [scanTokens]
  | cons c a' ih =>
    simp only [List.mem_cons, not_or] at h
    rw [List.cons_append, scanTokens, if_neg (Ne.symm h.1), ih h.2]

theorem scanTokens_joinLn (gs : List Str) (tail : Str)
    (h : ∀ g ∈ gs, '\n' ∉ g) :
    scanTokens (joinLn gs tail) = gs ++ scanTokens tail := by
  induction gs with
  | nil => rfl
  | cons g gs ih =>
    have hg : joinLn (g :: gs) tail = g ++ '\n' :: joinLn gs tail := rfl
    rw [hg, scanTokens_append _ _ (h g (List.mem_cons_self _ _)),
      ih (fun g' hg' => h g' (List.mem_cons_of_mem _ hg')), List.cons_append]

theorem scanWithLimit_stop (gs : List Str) (t : Str) (ts : List Str)
    (hg : ∀ g ∈ gs, g.length < maxScanTokenSize)
    (ht : maxScanTokenSize ≤ t.length) :
    scanWithLimit (gs ++ t :: ts) = (gs.map dropCR, false) := by
  induction gs with
  | nil => simp [scanWithLimit, ht]
  | cons g gs ih =>
    have hlt := hg g (List.mem_cons_self _ _)
    rw [List.cons_append, scanWithLimit, if_neg (by omega)]
    simp [ih (fun g' hg' => hg g' (List.mem_cons_of_mem _ hg'))]

/-! ## Claims -/

/-- C1 (counterexample): the claim says that with `SHELL` unset the command
text is split into a program name plus arguments.  The source instead calls
`exec.Command(cmdString)`, so the whole text `"echo hi"` becomes the program
name with an empty argument list — it differs from the claimed
whitespace-split invocation `echo` with argument `hi`. -/
theorem c1_counterexample :
    shellCommand [] (str "echo hi") = ⟨str "echo hi", []⟩ ∧
      claimedDirectCommand (str "echo hi") = ⟨str "echo", [str "hi"]⟩ ∧
      shellCommand [] (str "echo hi") ≠ claimedDirectCommand (str "echo hi") := by
  refine ⟨by decide, by decide, by decide⟩

/-- C1 (amended): when `SHELL` is unset, the entire command text is passed
unsplit to `exec.Command` as the program name, with no arguments and no
shell semantics. -/
theorem c1_amended (env : Env) (cmdString : Str)
    (h : getenv env shellVar = []) :
    shellCommand env cmdString = ⟨cmdString, []⟩ := by
  simp [shellCommand, h]

/-- Witness for `c1_amended` at an environment with `SHELL` unset. -/
theorem c1_amended_witness :
    getenv [] shellVar = [] ∧
      shellCommand [] (str "echo hi") = ⟨str "echo hi", []⟩ :=
  ⟨by decide, c1_amended [] (str "echo hi") (by decide)⟩

/-- C2: when the subprocess fails to start or exits non-zero, `Patch`
returns an error carrying the command text and the underlying error, the
environment is untouched, no warnings are logged (no parsing occurs), and
the captured stdout then stderr are forwarded to the process's own streams
in that order. -/
theorem c2_error_path (env : Env) (exec : ExecCmd → SubprocResult)
    (cs e so se : Str)
    (h1 : getenv env patchCommandVar = cs) (h2 : cs ≠ [])
    (h3 : exec (shellCommand env cs) = ⟨some e, so, se⟩) :
    Patch env exec
      = ⟨some ⟨cs, e⟩, env, [], [(Chan.stdout, so), (Chan.stderr, se)]⟩ := by
  simp [Patch, h1, h2, patchFromCommand, h3]

/-- Witness for `c2_error_path` with a failing subprocess. -/
theorem c2_error_path_witness :
    getenv [(patchCommandVar, str "badcmd")] patchCommandVar = str "badcmd" ∧
      str "badcmd" ≠ [] ∧
      Patch [(patchCommandVar, str "badcmd")]
          (fun _ => ⟨some (str "exit status 1"), str "partial out", str "oops"⟩)
        = ⟨some ⟨str "badcmd", str "exit status 1"⟩,
            [(patchCommandVar, str "badcmd")], [],
            [(Chan.stdout, str "partial out"), (Chan.stderr, str "oops")]⟩ :=
  ⟨by decide, by decide,
    c2_error_path [(patchCommandVar, str "badcmd")]
      (fun _ => ⟨some (str "exit status 1"), str "partial out", str "oops"⟩)
      (str "badcmd") (str "exit status 1") (str "partial out") (str "oops")
      (by decide) (by decide) rfl⟩

/-- C3: when `PATCH_ENV_COMMAND` is unset or empty (`os.Getenv` returns the
empty string in both cases), `Patch` succeeds immediately for every possible
subprocess oracle, with the environment unchanged, no warnings, and nothing
written to the diagnostic streams — in particular the result does not depend
on `exec`, so no subprocess is consulted. -/
theorem c3_noop (env : Env) (exec : ExecCmd → SubprocResult)
    (h : getenv env patchCommandVar = []) :
    Patch env exec = ⟨none, env, [], []⟩ := by
  simp [Patch, h]

/-- Witness for `c3_noop`: once with the variable absent, once with it set
to the empty string. -/
theorem c3_noop_witness :
    (getenv [] patchCommandVar = [] ∧
      Patch [] (fun _ => ⟨none, str "FOO=bar", []⟩) = ⟨none, [], [], []⟩) ∧
    (getenv [(patchCommandVar, [])] patchCommandVar = [] ∧
      Patch [(patchCommandVar, [])] (fun _ => ⟨none, str "FOO=bar", []⟩)
        = ⟨none, [(patchCommandVar, [])], [], []⟩) :=
  ⟨⟨by decide, c3_noop [] _ (by decide)⟩,
    ⟨by decide, c3_noop [(patchCommandVar, [])] _ (by decide)⟩⟩

/-- C4: a line whose text before the first `'='` is the non-empty key `k`
(and whose remainder `v` may be empty, contain spaces, quotes, and further
`'='` characters) sets the variable `k` to exactly `v`; only NUL bytes,
which `os.Setenv` rejects, are excluded. -/
theorem c4_assignment (st : PatchState) (k v : Str)
    (hk : '=' ∉ k) (hne : k ≠ []) (hnk : noNul k) (hnv : noNul v) :
    processLine st (k ++ '=' :: v) = { st with env := envSet st.env k v } ∧
      envGet (envSet st.env k v) k = some v :=
  ⟨processLine_assign st k v hk hne hnk hnv, envGet_envSet_self st.env k v⟩

/-- Witness for `c4_assignment` with a value containing spaces, quote
characters, and a second `'='`. -/
theorem c4_assignment_witness :
    ('=' ∉ str "HINT") ∧ (str "HINT" ≠ []) ∧ noNul (str "HINT") ∧
      noNul (str "a b=\"c\" d") ∧
      (processLine ⟨[], []⟩ (str "HINT" ++ '=' :: str "a b=\"c\" d")
          = { env := envSet [] (str "HINT") (str "a b=\"c\" d"), warnings := [] } ∧
        envGet (envSet [] (str "HINT") (str "a b=\"c\" d")) (str "HINT")
          = some (str "a b=\"c\" d")) :=
  ⟨by decide, by decide, by decide, by decide,
    c4_assignment ⟨[], []⟩ (str "HINT") (str "a b=\"c\" d")
      (by decide) (by decide) (by decide) (by decide)⟩

/-- C5: a line with no `'='`, or whose text before the first `'='` is empty,
only appends a warning carrying that line verbatim; inside a full output the
malformed line leaves the resulting environment exactly as if the line were
absent (all other lines still applied), and the warning is present in the
log. -/
theorem c5_malformed :
    (∀ (st : PatchState) (l : Str), ('=' ∉ l ∨ ∃ v, l = '=' :: v) →
       processLine st l
         = { st with warnings := st.warnings ++ [.invalidLine l] }) ∧
    (∀ (env : Env) (ls1 ls2 : List Str) (m : Str),
       ('=' ∉ m ∨ ∃ v, m = '=' :: v) →
       (applyLines env (ls1 ++ m :: ls2)).env
           = (applyLines env (ls1 ++ ls2)).env ∧
         Warning.invalidLine m ∈ (applyLines env (ls1 ++ m :: ls2)).warnings) := by
  constructor
  · exact processLine_invalid
  · intro env ls1 ls2 m hm
    constructor
    · unfold applyLines
      rw [List.foldl_append, List.foldl_append, List.foldl_cons]
      apply foldl_env_congr
      rw [processLine_invalid _ m hm]
    · unfold applyLines
      rw [List.foldl_append, List.foldl_cons]
      apply foldl_warnings_mono
      rw [processLine_invalid _ m hm]
      exact List.mem_append_right _ (List.mem_singleton_self _)

/-- Witness for `c5_malformed`: `NOVALUE` (no `'='`) warned and skipped, and
`=novalue` (empty key) skipped inside an output whose other lines are still
applied. -/
theorem c5_malformed_witness :
    ('=' ∉ str "NOVALUE" ∨ ∃ v, str "NOVALUE" = '=' :: v) ∧
      processLine ⟨[], []⟩ (str "NOVALUE")
        = { env := [], warnings := [Warning.invalidLine (str "NOVALUE")] } ∧
      ('=' ∉ str "=novalue" ∨ ∃ v, str "=novalue" = '=' :: v) ∧
      ((applyLines [] ([str "A=1"] ++ str "=novalue" :: [str "B=2"])).env
          = (applyLines [] ([str "A=1"] ++ [str "B=2"])).env ∧
        Warning.invalidLine (str "=novalue")
          ∈ (applyLines [] ([str "A=1"] ++ str "=novalue" :: [str "B=2"])).warnings) :=
  ⟨Or.inl (by decide),
    c5_malformed.1 ⟨[], []⟩ (str "NOVALUE") (Or.inl (by decide)),
    Or.inr ⟨str "novalue", by decide⟩,
    c5_malformed.2 [] [str "A=1"] [str "B=2"] (str "=novalue")
      (Or.inr ⟨str "novalue", by decide⟩)⟩

/-- C6: lines are folded in order, so after an output of the shape
`ls1 ++ [k=v] ++ ls2` in which no line of `ls2` successfully assigns `k`,
the final value of `k` is `v` — overwriting both earlier lines of the same
output and any pre-existing value of `k` in the starting environment
(the starting environment is arbitrary). -/
theorem c6_last_write_wins (env : Env) (ls1 ls2 : List Str) (k v : Str)
    (hk : '=' ∉ k) (hne : k ≠ []) (hnk : noNul k) (hnv : noNul v)
    (h2 : ∀ l ∈ ls2, setsKey k l = false) :
    envGet (applyLines env (ls1 ++ (k ++ '=' :: v) :: ls2)).env k = some v := by
  unfold applyLines
  rw [List.foldl_append, List.foldl_cons,
    foldl_env_of_not_setsKey ls2 _ k h2,
    processLine_assign _ k v hk hne hnk hnv]
  exact envGet_envSet_self _ k v

/-- Witness for `c6_last_write_wins`: output `FOO=bar` then `FOO=baz`
against an environment where `FOO` is already `old`; the final value is
`baz`. -/
theorem c6_last_write_wins_witness :
    ('=' ∉ str "FOO") ∧ (str "FOO" ≠ []) ∧ noNul (str "FOO") ∧ noNul (str "baz") ∧
      (∀ l ∈ ([] : List Str), setsKey (str "FOO") l = false) ∧
      envGet (applyLines [(str "FOO", str "old")]
          ([str "FOO=bar"] ++ (str "FOO" ++ '=' :: str "baz") :: [])).env (str "FOO")
        = some (str "baz") :=
  ⟨by decide, by decide, by decide, by decide, by simp,
    c6_last_write_wins [(str "FOO", str "old")] [str "FOO=bar"] []
      (str "FOO") (str "baz") (by decide) (by decide) (by decide) (by decide)
      (by simp)⟩

/-- C7: whenever the subprocess report is a clean exit, `Patch` returns no
error, whatever the output contained; and a line whose `os.Setenv` call
fails (NUL byte in key or value) only appends a warning carrying the key and
value, leaving the environment untouched, so processing continues. -/
theorem c7_success_unconditional :
    (∀ (env : Env) (exec : ExecCmd → SubprocResult),
       (exec (shellCommand env (getenv env patchCommandVar))).exitErr = none →
       (Patch env exec).err = none) ∧
    (∀ (st : PatchState) (k v : Str), '=' ∉ k → k ≠ [] →
       setenvFails k v = true →
       processLine st (k ++ '=' :: v)
         = { st with warnings := st.warnings ++ [.setenvFailed k v] }) := by
  constructor
  · intro env exec hx
    by_cases hc : getenv env patchCommandVar = []
    · simp [Patch, hc]
    · simp [Patch, hc, patchFromCommand, hx]
  · exact processLine_setenv_fails

/-- Witness for `c7_success_unconditional`: a zero-exit subprocess whose
output is entirely malformed still yields success, and a value containing a
NUL byte produces a setenv warning without aborting. -/
theorem c7_success_unconditional_witness :
    (((fun _ => (⟨none, str "=bad\nNOVALUE", []⟩ : SubprocResult))
          (shellCommand [(patchCommandVar, str "emit")]
            (getenv [(patchCommandVar, str "emit")] patchCommandVar))).exitErr
        = none ∧
      (Patch [(patchCommandVar, str "emit")]
          (fun _ => ⟨none, str "=bad\nNOVALUE", []⟩)).err = none) ∧
    (('=' ∉ str "A") ∧ (str "A" ≠ []) ∧
      setenvFails (str "A") ['\x00'] = true ∧
      processLine ⟨[], []⟩ (str "A" ++ '=' :: ['\x00'])
        = { env := [], warnings := [Warning.setenvFailed (str "A") ['\x00']] }) :=
  ⟨⟨rfl, c7_success_unconditional.1 [(patchCommandVar, str "emit")]
      (fun _ => ⟨none, str "=bad\nNOVALUE", []⟩) rfl⟩,
    by decide, by decide, by decide,
    c7_success_unconditional.2 ⟨[], []⟩ (str "A") ['\x00']
      (by decide) (by decide) (by decide)⟩

/-- C8 (counterexample): the scanner yields an empty line for the output
`FOO=bar\n\nBAR=baz\n`, and `Patch` logs an invalid-line warning carrying
that empty line, contradicting the claim that empty lines produce no
warning. -/
theorem c8_counterexample :
    (scanLines (str "FOO=bar\n\nBAR=baz\n")).1
        = [str "FOO=bar", [], str "BAR=baz"] ∧
      (Patch [(patchCommandVar, str "emit")]
          (fun _ => ⟨none, str "FOO=bar\n\nBAR=baz\n", []⟩)).warnings
        = [Warning.invalidLine []] := by
  constructor
  · decide
  · decide

/-- C8 (amended): an empty line is not skipped silently — it is treated
like any other line without `'='`: a warning identifying the (empty) line is
logged, and no environment mutation is performed for it. -/
theorem c8_amended (st : PatchState) :
    processLine st []
      = { st with warnings := st.warnings ++ [.invalidLine []] } := rfl

/-- C9: if one raw output line reaches `bufio.MaxScanTokenSize`, the
scanner stops there; `Patch` silently returns exactly the result of
processing the lines before it — the long line and everything after it are
never parsed, no warning records the scan failure, and the call still
succeeds. -/
theorem c9_scan_silent_stop (env : Env) (exec : ExecCmd → SubprocResult)
    (cs : Str) (gs : List Str) (t r : Str)
    (h1 : getenv env patchCommandVar = cs) (h2 : cs ≠ [])
    (hg : ∀ g ∈ gs, '\n' ∉ g ∧ g.length < maxScanTokenSize)
    (ht1 : '\n' ∉ t) (ht2 : maxScanTokenSize ≤ t.length)
    (hx : (exec (shellCommand env cs)).exitErr = none)
    (ho : (exec (shellCommand env cs)).stdout = joinLn gs (t ++ '\n' :: r)) :
    Patch env exec
      = ⟨none, (applyLines env (gs.map dropCR)).env,
          (applyLines env (gs.map dropCR)).warnings, []⟩ := by
  have hscan : (scanLines (joinLn gs (t ++ '\n' :: r))).1 = gs.map dropCR := by
    rw [scanLines, scanTokens_joinLn gs _ (fun g hgm => (hg g hgm).1),
      scanTokens_append t r ht1,
      scanWithLimit_stop gs t _ (fun g hgm => (hg g hgm).2) ht2]
  simp [Patch, h1, h2, patchFromCommand, hx, ho, hscan]

/-- Witness for `c9_scan_silent_stop`: a 65536-byte line stops the scan;
only the line before it is applied and the call succeeds. -/
theorem c9_scan_silent_stop_witness :
    getenv [(patchCommandVar, str "emit")] patchCommandVar = str "emit" ∧
      str "emit" ≠ [] ∧
      (∀ g ∈ [str "A=b"], '\n' ∉ g ∧ g.length < maxScanTokenSize) ∧
      '\n' ∉ List.replicate 65536 'x' ∧
      maxScanTokenSize ≤ (List.replicate 65536 'x').length ∧
      Patch [(patchCommandVar, str "emit")]
          (fun _ => ⟨none,
            joinLn [str "A=b"] (List.replicate 65536 'x' ++ '\n' :: str "B=c"),
            []⟩)
        = ⟨none,
            (applyLines [(patchCommandVar, str "emit")]
              ([str "A=b"].map dropCR)).env,
            (applyLines [(patchCommandVar, str "emit")]
              ([str "A=b"].map dropCR)).warnings, []⟩ :=
  ⟨by decide, by decide, by decide,
    by
      intro hm
      rw [List.mem_replicate] at hm
      exact absurd hm.2 (by decide),
    by
      rw [List.length_replicate]
      exact Nat.le_refl _,
    c9_scan_silent_stop [(patchCommandVar, str "emit")]
      (fun _ => ⟨none,
        joinLn [str "A=b"] (List.replicate 65536 'x' ++ '\n' :: str "B=c"), []⟩)
      (str "emit") [str "A=b"] (List.replicate 65536 'x') (str "B=c")
      (by decide) (by decide) (by decide)
      (by
        intro hm
        rw [List.mem_replicate] at hm
        exact absurd hm.2 (by decide))
      (by
        rw [List.length_replicate]
        exact Nat.le_refl _)
      rfl rfl⟩

/-- C10: no trimming is performed — the key is the exact text before the
first `'='` (spaces included), the value the exact text after it, and a
key with surrounding spaces names a variable distinct from any other name,
whose entry the assignment does not touch. -/
theorem c10_no_trim (st : PatchState) (k v k' : Str)
    (hk : '=' ∉ k) (hne : k ≠ []) (hnk : noNul k) (hnv : noNul v)
    (hdiff : k' ≠ k) :
    (processLine st (k ++ '=' :: v)).env = envSet st.env k v ∧
      envGet (envSet st.env k v) k = some v ∧
      envGet (envSet st.env k v) k' = envGet st.env k' := by
  refine ⟨?_, envGet_envSet_self st.env k v,
    envGet_envSet_ne st.env k v k' hdiff⟩
  rw [processLine_assign st k v hk hne hnk hnv]

/-- Witness for `c10_no_trim`: the line ` FOO =bar` sets the variable
named `" FOO "` (spaces kept) and leaves `"FOO"` untouched. -/
theorem c10_no_trim_witness :
    ('=' ∉ str " FOO ") ∧ (str " FOO " ≠ []) ∧ noNul (str " FOO ") ∧
      noNul (str "bar") ∧ (str "FOO" ≠ str " FOO ") ∧
      ((processLine ⟨[(str "FOO", str "keep")], []⟩ (str " FOO " ++ '=' :: str "bar")).env
          = envSet [(str "FOO", str "keep")] (str " FOO ") (str "bar") ∧
        envGet (envSet [(str "FOO", str "keep")] (str " FOO ") (str "bar")) (str " FOO ")
          = some (str "bar") ∧
        envGet (envSet [(str "FOO", str "keep")] (str " FOO ") (str "bar")) (str "FOO")
          = envGet [(str "FOO", str "keep")] (str "FOO")) :=
  ⟨by decide, by decide, by decide, by decide, by decide,
    c10_no_trim ⟨[(str "FOO", str "keep")], []⟩ (str " FOO ") (str "bar")
      (str "FOO") (by decide) (by decide) (by decide) (by decide) (by decide)⟩

end Patchenv
